import Mathlib

/-!
Verification of the cleanup engine of `maccleanup-rust` (src/main.rs).

The filesystem is modelled as a tree of entries.  Every fallible system call
of the Rust code is modelled by an explicit `Option` / `Bool`:
  * `FileMeta` is the result of a successful `entry.metadata()` call on a
    file: the byte length (`metadata.len()`) and the result of the
    `metadata.modified()` / `modified.elapsed()` chain (`modElapsed`, the
    elapsed seconds since modification, `none` when either call fails).
  * a `file` carries `meta : Option FileMeta` (`none` = `metadata()` failed)
    and `removable : Bool` (whether `fs::remove_file` succeeds on it);
  * a `dir` carries `meta : Option (Option Nat)` (outer `Option` =
    `metadata()`, inner = the `modified()`/`elapsed()` chain),
    `removable : Bool` (whether `fs::remove_dir_all` succeeds),
    `readable : Bool` (whether `fs::read_dir` succeeds) and its children.
-/

structure FileMeta where
  len : Nat
  modElapsed : Option Nat
deriving Repr, DecidableEq

inductive FSEntry : Type where
  | file (name : String) (meta : Option FileMeta) (removable : Bool)
  | dir (name : String) (meta : Option (Option Nat)) (removable : Bool)
      (readable : Bool) (children : List FSEntry)
deriving Repr

def FSEntry.name : FSEntry → String
  | .file n _ _ => n
  | .dir n _ _ _ _ => n

/-- The result of the `metadata()` → `modified()` → `elapsed()` chain on an
entry: `some e` when all three calls succeed and the entry was modified
`e` seconds ago, `none` when any of them fails. -/
def FSEntry.elapsedSecs : FSEntry → Option Nat
  | .file _ none _ => none
  | .file _ (some m) _ => m.modElapsed
  | .dir _ none _ _ _ => none
  | .dir _ (some o) _ _ _ => o

def FSEntry.removable : FSEntry → Bool
  | .file _ _ r => r
  | .dir _ _ r _ _ => r

def FSEntry.isDir : FSEntry → Bool
  | .file _ _ _ => false
  | .dir _ _ _ _ _ => true

/-- `name.starts_with(".")` of the Rust code (true iff the first character
is a dot). -/
def startsWithDot (name : String) : Bool :=
  match name.data with
  | [] => false
  | c :: _ => c == '.'

/-- The protected-name test of `clean_directory`
(`name == ".DS_Store" || name.starts_with(".")`). -/
def isProtectedName (name : String) : Bool :=
  name == ".DS_Store" || startsWithDot name

mutual

/-- `get_directory_size` (src/main.rs:1183) evaluated on one entry: for a
directory, read its listing (`0` when `read_dir` fails) and sum the
recursive sizes; for a file, `entry.metadata().map(|m| m.len()).unwrap_or(0)`. -/
def entryRecSize : FSEntry → Nat
  | .file _ meta _ =>
    match meta with
    | some m => m.len
    | none => 0
  | .dir _ _ _ readable children => if readable then listSize children else 0

/-- The loop body of `get_directory_size`: sum of `entryRecSize` over a
directory listing. -/
def listSize : List FSEntry → Nat
  | [] => 0
  | e :: rest => entryRecSize e + listSize rest

end

/-- `CleanupStats` (src/main.rs:38). -/
structure CleanupStats where
  files_removed : Nat
  space_freed : Nat
deriving Repr, DecidableEq

/-- `CleanupStats::add` (src/main.rs:51). -/
def CleanupStats.add (s other : CleanupStats) : CleanupStats :=
  ⟨s.files_removed + other.files_removed, s.space_freed + other.space_freed⟩

/-- Result of one `clean_directory` call: the returned stats, the children
that remain in the directory afterwards, and the number of invocations of a
removal primitive (`fs::remove_file` / `fs::remove_dir_all`) it performed. -/
structure CleanResult where
  stats : CleanupStats
  remaining : List FSEntry
  removalCalls : Nat
deriving Repr

/-- The age test of `clean_directory` (src/main.rs:1137-1148): the entry is
skipped (`continue`) iff a threshold is given, the whole
`metadata()`/`modified()`/`elapsed()` chain succeeds, and
`elapsed.as_secs() / 86400 < days`.  When any of the three calls fails the
code falls through to the removal step. -/
def ageSkipped (days_old : Option Nat) (e : FSEntry) : Bool :=
  match days_old, e.elapsedSecs with
  | some days, some elapsed => elapsed / 86400 < days
  | _, _ => false

/-- The per-entry loop of `clean_directory` (src/main.rs:1126-1177) over a
directory listing.  For each entry, in source order: skip protected names;
skip entries failing the age test; measure the size before deletion
(`get_directory_size` for a directory, `metadata().len()` for a file);
then either simulate (dry run) or call the removal primitive, counting the
entry only when removal succeeds. -/
def cleanList (days_old : Option Nat) (dry_run : Bool) : List FSEntry → CleanResult
  | [] => ⟨⟨0, 0⟩, [], 0⟩
  | e :: rest =>
    let r := cleanList days_old dry_run rest
    if isProtectedName e.name then
      ⟨r.stats, e :: r.remaining, r.removalCalls⟩
    else if ageSkipped days_old e then
      ⟨r.stats, e :: r.remaining, r.removalCalls⟩
    else
      let size := entryRecSize e
      if dry_run then
        ⟨⟨r.stats.files_removed + 1, r.stats.space_freed + size⟩,
          e :: r.remaining, r.removalCalls⟩
      else if e.removable then
        ⟨⟨r.stats.files_removed + 1, r.stats.space_freed + size⟩,
          r.remaining, r.removalCalls + 1⟩
      else
        ⟨r.stats, e :: r.remaining, r.removalCalls + 1⟩

/-- `clean_directory` (src/main.rs:1122): `readable` is whether
`fs::read_dir(path)` succeeds on the target; when it fails the function
returns fresh (empty) stats and touches nothing. -/
def clean_directory (readable : Bool) (children : List FSEntry)
    (days_old : Option Nat) (dry_run : Bool) : CleanResult :=
  if readable then cleanList days_old dry_run children else ⟨⟨0, 0⟩, children, 0⟩

/-- The per-entry contribution of the loop of `get_old_files_size`
(src/main.rs:1205-1223): an entry contributes iff its
`metadata()`/`modified()`/`elapsed()` chain succeeds and
`elapsed.as_secs() / 86400 >= days`; a qualifying directory contributes
`get_directory_size`, a qualifying file contributes `metadata.len()`.
There is no protected-name check in this function. -/
def oldContribution (days : Nat) : FSEntry → Nat
  | .file _ (some m) _ =>
    match m.modElapsed with
    | some elapsed => if days ≤ elapsed / 86400 then m.len else 0
    | none => 0
  | .file _ none _ => 0
  | .dir n (some (some elapsed)) rm rd cs =>
    if days ≤ elapsed / 86400 then entryRecSize (.dir n (some (some elapsed)) rm rd cs) else 0
  | .dir _ (some none) _ _ _ => 0
  | .dir _ none _ _ _ => 0

/-- The listing loop of `get_old_files_size`. -/
def oldFilesList (days : Nat) : List FSEntry → Nat
  | [] => 0
  | e :: rest => oldContribution days e + oldFilesList days rest

/-- `get_old_files_size` (src/main.rs:1202): `readable` is whether
`fs::read_dir(path)` succeeds; on failure the size is 0. -/
def get_old_files_size (readable : Bool) (children : List FSEntry) (days : Nat) : Nat :=
  if readable then oldFilesList days children else 0

/-- `CleanupContext::should_proceed` (src/main.rs:73): under dry run it
always answers `false` (after printing the simulated action); under force
it always answers `true`; under interactive it returns whether the textual
answer was affirmative (`answerYes`); otherwise `true`. -/
def should_proceed (dry_run force interactive answerYes : Bool) : Bool :=
  if dry_run then false
  else if force then true
  else if interactive then answerYes
  else true

/-- The removal loop of `find_and_clean_node_modules` (src/main.rs:1065-1069):
`files_removed` is incremented once per directory whose `fs::remove_dir_all`
succeeds. -/
def removeFoundDirs : List FSEntry → Nat
  | [] => 0
  | e :: rest => (if e.removable then 1 else 0) + removeFoundDirs rest

/-- The stats update of the non-dry-run branch of
`find_and_clean_node_modules` (src/main.rs:1064-1070): `files_removed`
counts successful removals, while `space_freed` is increased by
`total_size`, the sum of `get_directory_size` over every found directory
computed before any removal (src/main.rs:1036-1038). -/
def find_and_clean_node_modules_stats (found : List FSEntry) : CleanupStats :=
  ⟨removeFoundDirs found, listSize found⟩

mutual

/-- `find_node_modules_recursive` (src/main.rs:1080) called on a directory
entry: return immediately when `depth > max_depth`, or when `read_dir`
fails; otherwise scan the listing. -/
def findNM (e : FSEntry) (depth max_depth : Nat) : List FSEntry :=
  if max_depth < depth then []
  else
    match e with
    | .dir _ _ _ readable children =>
      if readable then findNMList children depth max_depth else []
    | .file _ _ _ => []

/-- The listing loop of `find_node_modules_recursive`: a directory named
`node_modules` is recorded without descending into it; a directory whose
name starts with a dot or equals `Library` is skipped entirely; any other
directory is searched recursively at `depth + 1`; files are ignored. -/
def findNMList (l : List FSEntry) (depth max_depth : Nat) : List FSEntry :=
  match l with
  | [] => []
  | e :: rest =>
    (match e with
     | .dir nm _ _ _ _ =>
       if nm == "node_modules" then [e]
       else if !startsWithDot nm && nm != "Library" then findNM e (depth + 1) max_depth
       else []
     | .file _ _ _ => []) ++ findNMList rest depth max_depth

end

/-- Split a character list at every dot (the groups between dots, in
order), mirroring a split of the file name on `.`. -/
def splitOnDot : List Char → List (List Char)
  | [] => [[]]
  | c :: rest =>
    if c == '.' then [] :: splitOnDot rest
    else
      match splitOnDot rest with
      | [] => [[c]]
      | g :: gs => (c :: g) :: gs

/-- `Path::extension()` of a file name, as used at src/main.rs:1455:
`none` when the name has no embedded dot or is a pure dotfile (a leading
dot with no further dot); otherwise the portion after the final dot. -/
def pathExtension (name : String) : Option String :=
  match splitOnDot name.data with
  | [] => none
  | [_] => none
  | first :: second :: rest =>
    if first == [] && rest == [] then none
    else ((second :: rest).getLast?).map String.mk

mutual

/-- `find_python_cache_files` (src/main.rs:1433) called on a directory
entry: same shape as `find_node_modules_recursive`. -/
def findPyc (e : FSEntry) (depth max_depth : Nat) : List FSEntry :=
  if max_depth < depth then []
  else
    match e with
    | .dir _ _ _ readable children =>
      if readable then findPycList children depth max_depth else []
    | .file _ _ _ => []

/-- The listing loop of `find_python_cache_files`: a directory named
`__pycache__` is recorded without descending into it; dot-directories and
`Library` are skipped; other directories are searched at `depth + 1`; a
file is recorded iff its extension is `pyc` or `pyo`. -/
def findPycList (l : List FSEntry) (depth max_depth : Nat) : List FSEntry :=
  match l with
  | [] => []
  | e :: rest =>
    (match e with
     | .dir nm _ _ _ _ =>
       if nm == "__pycache__" then [e]
       else if !startsWithDot nm && nm != "Library" then findPyc e (depth + 1) max_depth
       else []
     | .file nm _ _ =>
       if pathExtension nm == some "pyc" || pathExtension nm == some "pyo" then [e]
       else []) ++ findPycList rest depth max_depth

end

mutual

/-- Entries of a tree located at an exact depth below a root entry
(depth 0 is the root itself, depth 1 its immediate children, and so on).
Used to state the depth-bound properties of the recursive finders. -/
def descAtDepth : FSEntry → Nat → List FSEntry
  | e, 0 => [e]
  | .file _ _ _, _ + 1 => []
  | .dir _ _ _ _ children, d + 1 => descListAtDepth children d

/-- `descAtDepth` over a listing. -/
def descListAtDepth : List FSEntry → Nat → List FSEntry
  | [], _ => []
  | e :: rest, d => descAtDepth e d ++ descListAtDepth rest d

end

example : listSize [FSEntry.file "a" (some ⟨7, none⟩) true,
    FSEntry.dir "d" none true true [FSEntry.file "b" (some ⟨5, some 3⟩) true]] = 12 := rfl
example : entryRecSize (FSEntry.dir "d" none true false
    [FSEntry.file "b" (some ⟨5, some 3⟩) true]) = 0 := rfl
example : (cleanList (some 7) false
    [FSEntry.file "stale.log" (some ⟨100, none⟩) true]).stats = ⟨1, 100⟩ := rfl
example : pathExtension "a.pyc" = some "pyc" := rfl
example : pathExtension ".pyc" = none := rfl
example : pathExtension "b.x.pyo" = some "pyo" := rfl
example : pathExtension "noext" = none := rfl

/-- The aged-size estimate as the specification words it (spec.md §8,
"Testable properties"): the sum of `sizeOf(child)` over immediate children
whose age in whole days is at least `k`, excluding protected names.  Used
only to compare the specification text with `get_old_files_size`. -/
def specAgedSum (children : List FSEntry) (k : Nat) : Nat :=
  ((children.filter (fun e =>
      !isProtectedName e.name &&
      match e.elapsedSecs with
      | some elapsed => decide (k ≤ elapsed / 86400)
      | none => false)).map entryRecSize).sum

/-- The age-filtered size sum with no protected-name exclusion: sum of
`entryRecSize` over immediate children whose modification chain is readable
and whose age in whole days is at least `k`. -/
def agedSumAll (children : List FSEntry) (k : Nat) : Nat :=
  ((children.filter (fun e =>
      match e.elapsedSecs with
      | some elapsed => decide (k ≤ elapsed / 86400)
      | none => false)).map entryRecSize).sum

/-- The interior of the depth-2 `node_modules` directory of Scenario C of
the specification: it contains a nested `node_modules` at depth 4. -/
def nmInterior : List FSEntry :=
  [FSEntry.dir "sub" none true true [FSEntry.dir "node_modules" none true true []]]

/-- The tree of Scenario C: `project/node_modules` at depth 2, with
`project/node_modules/sub/node_modules` at depth 4. -/
def scenarioTreeC : FSEntry :=
  FSEntry.dir "root" none true true
    [FSEntry.dir "project" none true true
      [FSEntry.dir "node_modules" none true true nmInterior]]

/-- A tree with a `node_modules` directory at depth 4 below the root whose
ancestors are ordinary directories, so nothing prunes the descent. -/
def deepNMTree : FSEntry :=
  FSEntry.dir "root" none true true
    [FSEntry.dir "a" none true true
      [FSEntry.dir "b" none true true
        [FSEntry.dir "c" none true true
          [FSEntry.dir "node_modules" none true true []]]]]

theorem ageSkipped_none (e : FSEntry) : ageSkipped none e = false := by
  cases h : e.elapsedSecs <;> simp [ageSkipped, h]

theorem ageSkipped_zero (e : FSEntry) : ageSkipped (some 0) e = false := by
  cases h : e.elapsedSecs <;> simp [ageSkipped, h]

theorem cleanList_zero_eq_none (dry_run : Bool) (l : List FSEntry) :
    cleanList (some 0) dry_run l = cleanList none dry_run l := by
  induction l with
  | nil => rfl
  | cons e rest ih => simp [cleanList, ih, ageSkipped_zero, ageSkipped_none]

theorem cleanList_files_le (days_old : Option Nat) (dry_run : Bool) (l : List FSEntry) :
    (cleanList days_old dry_run l).stats.files_removed ≤ l.length := by
  induction l with
  | nil => simp [cleanList]
  | cons e rest ih =>
    simp only [cleanList, List.length_cons]
    split
    · exact Nat.le_succ_of_le ih
    · split
      · exact Nat.le_succ_of_le ih
      · split
        · exact Nat.succ_le_succ ih
        · split
          · exact Nat.succ_le_succ ih
          · exact Nat.le_succ_of_le ih

theorem cleanList_dry_calls (days_old : Option Nat) (l : List FSEntry) :
    (cleanList days_old true l).removalCalls = 0 := by
  induction l with
  | nil => rfl
  | cons e rest ih =>
    simp only [cleanList]
    split
    · exact ih
    · split
      · exact ih
      · simpa using ih

theorem cleanList_dry_force_stats (days_old : Option Nat) (l : List FSEntry)
    (h : l.all (fun e =>
      isProtectedName e.name || ageSkipped days_old e || e.removable) = true) :
    (cleanList days_old true l).stats = (cleanList days_old false l).stats := by
  induction l with
  | nil => rfl
  | cons e rest ih =>
    rw [List.all_cons, Bool.and_eq_true] at h
    have ih2 := ih h.2
    by_cases hp : isProtectedName e.name = true
    · simp [cleanList, hp, ih2]
    · by_cases ha : ageSkipped days_old e = true
      · simp [cleanList, hp, ha, ih2]
      · have hrem : e.removable = true := by
          have h1 := h.1
          rw [Bool.or_eq_true, Bool.or_eq_true] at h1
          rcases h1 with (h1 | h1) | h1
          · exact absurd h1 hp
          · exact absurd h1 ha
          · exact h1
        simp [cleanList, hp, ha, hrem, ih2]

theorem cleanList_none_force (l : List FSEntry)
    (h : l.all (fun e => e.removable) = true) :
    (cleanList none false l).remaining = l.filter (fun e => isProtectedName e.name)
    ∧ (cleanList none false l).stats.files_removed
        = (l.filter (fun e => !isProtectedName e.name)).length
    ∧ (cleanList none false l).stats.space_freed
        = listSize (l.filter (fun e => !isProtectedName e.name)) := by
  induction l with
  | nil => simp [cleanList, listSize]
  | cons e rest ih =>
    rw [List.all_cons, Bool.and_eq_true] at h
    obtain ⟨h1, h2, h3⟩ := ih h.2
    by_cases hp : isProtectedName e.name = true
    · simp [cleanList, hp, ageSkipped_none, List.filter_cons, h1, h2, h3]
    · simp [cleanList, hp, ageSkipped_none, List.filter_cons, h.1, h1, h2, h3, listSize]
      omega

theorem oldContribution_eq (days : Nat) (e : FSEntry) :
    oldContribution days e
      = (if (match e.elapsedSecs with
           | some elapsed => decide (days ≤ elapsed / 86400)
           | none => false) = true then entryRecSize e else 0) := by
  cases e with
  | file n meta rm =>
    cases meta with
    | none => rfl
    | some m =>
      cases hm : m.modElapsed <;>
        simp [oldContribution, FSEntry.elapsedSecs, hm, entryRecSize]
  | dir n meta rm rd cs =>
    cases meta with
    | none => rfl
    | some o => cases o <;> simp [oldContribution, FSEntry.elapsedSecs]

theorem oldFilesList_eq_agedSum (days : Nat) (l : List FSEntry) :
    oldFilesList days l = agedSumAll l days := by
  induction l with
  | nil => rfl
  | cons e rest ih =>
    by_cases hp : (match e.elapsedSecs with
        | some elapsed => decide (days ≤ elapsed / 86400)
        | none => false) = true
    · simp [oldFilesList, agedSumAll, List.filter_cons, hp, oldContribution_eq, ih]
    · simp [oldFilesList, agedSumAll, List.filter_cons, hp, oldContribution_eq, ih]

theorem removeFoundDirs_eq_filter (l : List FSEntry) :
    removeFoundDirs l = (l.filter (fun x => x.removable)).length := by
  induction l with
  | nil => rfl
  | cons e rest ih =>
    by_cases h : e.removable = true <;>
      simp [removeFoundDirs, List.filter_cons, h, ih] <;> omega

/-- C1: the claim says an entry whose modification time cannot be read is
treated as not qualifying and never deleted.  The code does the opposite:
in `clean_directory` with `min_age_days = Some 7`, a file whose
`modified()` chain fails (`modElapsed = none`) falls through the age check
and is removed and counted (`files_removed = 1`, `space_freed = 100`, one
removal call, nothing remaining). -/
theorem c1_unknown_age_entry_is_deleted :
    clean_directory true [FSEntry.file "stale.log" (some ⟨100, none⟩) true] (some 7) false
      = ⟨⟨1, 100⟩, [], 1⟩ := rfl

/-- C2 (counterexample): a 100-day-old `.DS_Store` of 50 bytes is counted
by `get_old_files_size` with threshold 7, while the specification's sum,
which excludes protected names, is 0 — the claimed equality fails. -/
theorem c2_counterexample_protected_counted :
    get_old_files_size true [FSEntry.file ".DS_Store" (some ⟨50, some 8640000⟩) true] 7 = 50
    ∧ specAgedSum [FSEntry.file ".DS_Store" (some ⟨50, some 8640000⟩) true] 7 = 0 := by
  constructor <;> rfl

/-- C2 (amended): `get_old_files_size(D, k)` equals the sum of recursive
sizes over exactly those immediate children whose age in whole days is at
least `k`, with NO protected-name exclusion (dotfiles and `.DS_Store` are
included in the sum); children whose metadata or modification time is
unreadable contribute nothing, and an unreadable listing yields 0. -/
theorem c2_aged_size_no_protection (readable : Bool) (children : List FSEntry) (k : Nat) :
    get_old_files_size readable children k
      = if readable then agedSumAll children k else 0 := by
  cases readable <;> simp [get_old_files_size, oldFilesList_eq_agedSum]

/-- C2 (witness): the amended equation evaluated on a concrete listing. -/
theorem c2_aged_size_no_protection_witness :
    get_old_files_size true [FSEntry.file ".DS_Store" (some ⟨50, some 8640000⟩) true] 7
      = if true then agedSumAll [FSEntry.file ".DS_Store" (some ⟨50, some 8640000⟩) true] 7 else 0 :=
  c2_aged_size_no_protection true [FSEntry.file ".DS_Store" (some ⟨50, some 8640000⟩) true] 7

/-- C3 (counterexample): in the batch removal of found `node_modules`
directories, a directory whose `remove_dir_all` fails is not counted in
`files_removed`, but `space_freed` is still increased by the pre-computed
total, which includes its 500 bytes — contradicting the claim that a
failed entry's size is never added on every removal path. -/
theorem c3_counterexample_batch_counts_failed_size :
    find_and_clean_node_modules_stats
      [FSEntry.dir "node_modules" none false true [FSEntry.file "a.js" (some ⟨500, some 0⟩) true]]
      = ⟨0, 500⟩ := rfl

/-- C3 (amended): in `clean_directory`, an entry whose removal fails is not
counted (the stats equal those of the remaining siblings) and stays in the
directory while traversal continues; in the `find_and_clean_node_modules`
batch path, `files_removed` counts only successful removals but
`space_freed` is increased by the pre-computed total size of ALL found
directories, including those whose removal fails. -/
theorem c3_failed_removal_not_counted :
    (∀ days_old e rest, e.removable = false →
      (cleanList days_old false (e :: rest)).stats = (cleanList days_old false rest).stats
        ∧ e ∈ (cleanList days_old false (e :: rest)).remaining)
    ∧ (∀ found, (find_and_clean_node_modules_stats found).files_removed
          = (found.filter (fun x => x.removable)).length
        ∧ (find_and_clean_node_modules_stats found).space_freed = listSize found) := by
  constructor
  · intro days_old e rest hrem
    by_cases hp : isProtectedName e.name = true
    · constructor <;> simp [cleanList, hp]
    · by_cases ha : ageSkipped days_old e = true
      · constructor <;> simp [cleanList, hp, ha]
      · constructor <;> simp [cleanList, hp, ha, hrem]
  · intro found
    exact ⟨removeFoundDirs_eq_filter found, rfl⟩

/-- C3 (witness): the amended statement applied to a locked 10-byte log
file. -/
theorem c3_failed_removal_not_counted_witness :
    (cleanList (some 7) false [FSEntry.file "locked.log" (some ⟨10, some 864000⟩) false]).stats
      = (cleanList (some 7) false ([] : List FSEntry)).stats
    ∧ FSEntry.file "locked.log" (some ⟨10, some 864000⟩) false
        ∈ (cleanList (some 7) false [FSEntry.file "locked.log" (some ⟨10, some 864000⟩) false]).remaining :=
  c3_failed_removal_not_counted.1 (some 7)
    (FSEntry.file "locked.log" (some ⟨10, some 864000⟩) false) [] rfl

/-- C4 (counterexample): over the same filesystem, a dry run on a
directory containing one qualifying but locked 100-byte file reports
`space_freed = 100`, while a force run actually frees 0 — the claimed
equality of reported and actually-freed bytes fails when a removal fails. -/
theorem c4_counterexample_dry_run_overreports :
    (clean_directory true [FSEntry.file "old.log" (some ⟨100, some 864000⟩) false]
        (some 7) true).stats.space_freed = 100
    ∧ (clean_directory true [FSEntry.file "old.log" (some ⟨100, some 864000⟩) false]
        (some 7) false).stats.space_freed = 0 := by
  constructor <;> rfl

/-- C4 (amended): the dry-run gate `should_proceed` always refuses, a
dry-run `clean_directory` performs zero removal-primitive calls, and —
provided every QUALIFYING child's removal succeeds (every child is
protected, age-skipped, or removable; removal of protected or age-skipped
children is never attempted) — the stats a dry run reports are exactly the
stats a force run over the same unchanged filesystem produces (the
qualifying-entry selection is identical; only the side effect differs). -/
theorem c4_dry_run_refines_force :
    (∀ force interactive answerYes, should_proceed true force interactive answerYes = false)
    ∧ (∀ readable children days_old,
        (clean_directory readable children days_old true).removalCalls = 0)
    ∧ (∀ readable children days_old,
        children.all (fun e =>
          isProtectedName e.name || ageSkipped days_old e || e.removable) = true →
        (clean_directory readable children days_old true).stats
          = (clean_directory readable children days_old false).stats) := by
  refine ⟨fun _ _ _ => rfl, fun readable children days_old => ?_, ?_⟩
  · cases readable <;> simp [clean_directory, cleanList_dry_calls]
  · intro readable children days_old h
    cases readable <;> simp [clean_directory, cleanList_dry_force_stats days_old children h]

/-- C4 (witness): the amended statement on a directory holding a removable
100-byte qualifying `old.log`, a locked (unremovable) protected
`.DS_Store`, and a locked too-young `new.log` — only the qualifying
child's removal needs to succeed. -/
theorem c4_dry_run_refines_force_witness :
    should_proceed true true false false = false
    ∧ (clean_directory true [FSEntry.file "old.log" (some ⟨100, some 864000⟩) true,
        FSEntry.file ".DS_Store" (some ⟨50, some 864000⟩) false,
        FSEntry.file "new.log" (some ⟨30, some 3600⟩) false]
        (some 7) true).removalCalls = 0
    ∧ (clean_directory true [FSEntry.file "old.log" (some ⟨100, some 864000⟩) true,
        FSEntry.file ".DS_Store" (some ⟨50, some 864000⟩) false,
        FSEntry.file "new.log" (some ⟨30, some 3600⟩) false]
        (some 7) true).stats
      = (clean_directory true [FSEntry.file "old.log" (some ⟨100, some 864000⟩) true,
        FSEntry.file ".DS_Store" (some ⟨50, some 864000⟩) false,
        FSEntry.file "new.log" (some ⟨30, some 3600⟩) false]
        (some 7) false).stats :=
  ⟨c4_dry_run_refines_force.1 true false false,
   c4_dry_run_refines_force.2.1 true
     [FSEntry.file "old.log" (some ⟨100, some 864000⟩) true,
      FSEntry.file ".DS_Store" (some ⟨50, some 864000⟩) false,
      FSEntry.file "new.log" (some ⟨30, some 3600⟩) false] (some 7),
   c4_dry_run_refines_force.2.2 true
     [FSEntry.file "old.log" (some ⟨100, some 864000⟩) true,
      FSEntry.file ".DS_Store" (some ⟨50, some 864000⟩) false,
      FSEntry.file "new.log" (some ⟨30, some 3600⟩) false] (some 7) rfl⟩

/-- C5: an entry modified exactly `k` whole days ago (elapsed seconds
`k * 86400`) qualifies under `min_age_days = k` and is removed and counted;
an entry one second short of `k` days (`k * 86400 - 1` seconds, `k ≥ 1`)
does not qualify and remains; and (truncation, not rounding) an entry
`k` days plus half a day old does not qualify under `min_age_days = k + 1`. -/
theorem c5_age_boundary (k : Nat) (name : String) (len : Nat)
    (hname : isProtectedName name = false) :
    (cleanList (some k) false [FSEntry.file name (some ⟨len, some (k * 86400)⟩) true]).stats
      = ⟨1, len⟩
    ∧ (1 ≤ k →
        (cleanList (some k) false
            [FSEntry.file name (some ⟨len, some (k * 86400 - 1)⟩) true]).stats = ⟨0, 0⟩
        ∧ FSEntry.file name (some ⟨len, some (k * 86400 - 1)⟩) true
            ∈ (cleanList (some k) false
                [FSEntry.file name (some ⟨len, some (k * 86400 - 1)⟩) true]).remaining)
    ∧ (cleanList (some (k + 1)) false
        [FSEntry.file name (some ⟨len, some (k * 86400 + 43200)⟩) true]).stats = ⟨0, 0⟩ := by
  refine ⟨?_, fun hk => ?_, ?_⟩
  · have hq : ageSkipped (some k)
        (FSEntry.file name (some ⟨len, some (k * 86400)⟩) true) = false := by
      simp only [ageSkipped, FSEntry.elapsedSecs, decide_eq_false_iff_not]
      omega
    simp [cleanList, FSEntry.name, FSEntry.removable, hname, hq, entryRecSize]
  · have hs : ageSkipped (some k)
        (FSEntry.file name (some ⟨len, some (k * 86400 - 1)⟩) true) = true := by
      simp only [ageSkipped, FSEntry.elapsedSecs, decide_eq_true_eq]
      omega
    constructor <;> simp [cleanList, FSEntry.name, hname, hs]
  · have hs : ageSkipped (some (k + 1))
        (FSEntry.file name (some ⟨len, some (k * 86400 + 43200)⟩) true) = true := by
      simp only [ageSkipped, FSEntry.elapsedSecs, decide_eq_true_eq]
      omega
    simp [cleanList, FSEntry.name, hname, hs]

/-- C5 (witness): the boundary facts at `k = 7` on a 100-byte `a.txt`
(604800 and 604799 elapsed seconds; 648000 seconds under threshold 8). -/
theorem c5_age_boundary_witness :
    (cleanList (some 7) false [FSEntry.file "a.txt" (some ⟨100, some 604800⟩) true]).stats
      = ⟨1, 100⟩
    ∧ (cleanList (some 7) false
        [FSEntry.file "a.txt" (some ⟨100, some 604799⟩) true]).stats = ⟨0, 0⟩
    ∧ (cleanList (some 8) false
        [FSEntry.file "a.txt" (some ⟨100, some 648000⟩) true]).stats = ⟨0, 0⟩ := by
  have h := c5_age_boundary 7 "a.txt" 100 rfl
  exact ⟨h.1, (h.2.1 (by omega)).1, h.2.2⟩

/-- C6 (counterexample): under Force with no minimum age, a non-protected
file whose removal fails stays in the directory — the claim that no
non-protected immediate child remains is false on such a filesystem. -/
theorem c6_counterexample_locked_entry_remains :
    (clean_directory true [FSEntry.file "a.txt" (some ⟨100, some 0⟩) false]
        none false).remaining = [FSEntry.file "a.txt" (some ⟨100, some 0⟩) false]
    ∧ isProtectedName "a.txt" = false
    ∧ (clean_directory true [FSEntry.file "a.txt" (some ⟨100, some 0⟩) false]
        none false).stats.space_freed = 0 :=
  ⟨rfl, rfl, rfl⟩

/-- C6 (amended): after `clean_directory(D, None, Force)`, provided every
child's removal succeeds, exactly the protected children (dotfiles,
`.DS_Store`) remain, `files_removed` is the number of non-protected
children, and `space_freed` is the total of their sizes as measured before
deletion. -/
theorem c6_force_full_clear (children : List FSEntry)
    (h : children.all (fun e => e.removable) = true) :
    (clean_directory true children none false).remaining
      = children.filter (fun e => isProtectedName e.name)
    ∧ (clean_directory true children none false).stats.files_removed
        = (children.filter (fun e => !isProtectedName e.name)).length
    ∧ (clean_directory true children none false).stats.space_freed
        = listSize (children.filter (fun e => !isProtectedName e.name)) := by
  simpa [clean_directory] using cleanList_none_force children h

/-- C6 (witness): a full clear of a directory holding a removable 100-byte
`a.txt` and a protected `.DS_Store`. -/
theorem c6_force_full_clear_witness :
    (clean_directory true [FSEntry.file "a.txt" (some ⟨100, some 0⟩) true,
        FSEntry.file ".DS_Store" (some ⟨50, some 0⟩) true] none false).remaining
      = [FSEntry.file "a.txt" (some ⟨100, some 0⟩) true,
         FSEntry.file ".DS_Store" (some ⟨50, some 0⟩) true].filter
          (fun e => isProtectedName e.name)
    ∧ (clean_directory true [FSEntry.file "a.txt" (some ⟨100, some 0⟩) true,
        FSEntry.file ".DS_Store" (some ⟨50, some 0⟩) true] none false).stats.files_removed
      = ([FSEntry.file "a.txt" (some ⟨100, some 0⟩) true,
          FSEntry.file ".DS_Store" (some ⟨50, some 0⟩) true].filter
          (fun e => !isProtectedName e.name)).length
    ∧ (clean_directory true [FSEntry.file "a.txt" (some ⟨100, some 0⟩) true,
        FSEntry.file ".DS_Store" (some ⟨50, some 0⟩) true] none false).stats.space_freed
      = listSize ([FSEntry.file "a.txt" (some ⟨100, some 0⟩) true,
          FSEntry.file ".DS_Store" (some ⟨50, some 0⟩) true].filter
          (fun e => !isProtectedName e.name)) :=
  c6_force_full_clear
    [FSEntry.file "a.txt" (some ⟨100, some 0⟩) true,
     FSEntry.file ".DS_Store" (some ⟨50, some 0⟩) true] rfl

/-- C7 (counterexample): with `maxDepth = 3`, the recursive finder returns
a `node_modules` directory located at depth 4 below the root (its parents
`a/b/c` are ordinary directories): a call at depth 3 still enumerates and
matches entries at depth 4, so the finder does visit entries deeper than
the depth bound. -/
theorem c7_counterexample_depth_bound_exceeded :
    findNM deepNMTree 0 3 = [FSEntry.dir "node_modules" none true true []]
    ∧ descAtDepth deepNMTree 4 = [FSEntry.dir "node_modules" none true true []]
    ∧ descAtDepth deepNMTree 3
      = [FSEntry.dir "c" none true true [FSEntry.dir "node_modules" none true true []]] :=
  ⟨rfl, rfl, rfl⟩

/-- C7 (amended): both recursive finders record a matched directory
(`node_modules` / `__pycache__`) without descending into it, never descend
into dot-directories or `Library`, and stop recursing once the call depth
exceeds `max_depth` (so entries up to depth `max_depth + 1`, but no
deeper, can be enumerated); on the Scenario C tree with `maxDepth = 3`
only the depth-2 match is returned. -/
theorem c7_finder_prunes_and_skips :
    (∀ m rm rd cs rest depth maxd,
      findNMList (FSEntry.dir "node_modules" m rm rd cs :: rest) depth maxd
        = FSEntry.dir "node_modules" m rm rd cs :: findNMList rest depth maxd)
    ∧ (∀ m rm rd cs rest depth maxd,
      findPycList (FSEntry.dir "__pycache__" m rm rd cs :: rest) depth maxd
        = FSEntry.dir "__pycache__" m rm rd cs :: findPycList rest depth maxd)
    ∧ (∀ nm m rm rd cs rest depth maxd, startsWithDot nm = true →
      findNMList (FSEntry.dir nm m rm rd cs :: rest) depth maxd
        = findNMList rest depth maxd)
    ∧ (∀ m rm rd cs rest depth maxd,
      findNMList (FSEntry.dir "Library" m rm rd cs :: rest) depth maxd
        = findNMList rest depth maxd)
    ∧ (∀ nm m rm rd cs rest depth maxd, startsWithDot nm = true →
      findPycList (FSEntry.dir nm m rm rd cs :: rest) depth maxd
        = findPycList rest depth maxd)
    ∧ (∀ m rm rd cs rest depth maxd,
      findPycList (FSEntry.dir "Library" m rm rd cs :: rest) depth maxd
        = findPycList rest depth maxd)
    ∧ (∀ e maxd extra, findNM e (maxd + 1 + extra) maxd = [])
    ∧ (∀ e maxd extra, findPyc e (maxd + 1 + extra) maxd = [])
    ∧ findNM scenarioTreeC 0 3 = [FSEntry.dir "node_modules" none true true nmInterior] := by
  have hnmdot : ∀ nm : String, startsWithDot nm = true → (nm == "node_modules") = false := by
    intro nm hdot
    cases hb : nm == "node_modules"
    · rfl
    · exact absurd (eq_of_beq hb ▸ hdot) (by decide)
  have hpycdot : ∀ nm : String, startsWithDot nm = true → (nm == "__pycache__") = false := by
    intro nm hdot
    cases hb : nm == "__pycache__"
    · rfl
    · exact absurd (eq_of_beq hb ▸ hdot) (by decide)
  refine ⟨?_, ?_, ?_, ?_, ?_, ?_, ?_, ?_, rfl⟩
  · intro m rm rd cs rest depth maxd
    simp [findNMList]
  · intro m rm rd cs rest depth maxd
    simp [findPycList]
  · intro nm m rm rd cs rest depth maxd hdot
    simp [findNMList, hnmdot nm hdot, hdot]
  · intro m rm rd cs rest depth maxd
    simp [findNMList]
  · intro nm m rm rd cs rest depth maxd hdot
    simp [findPycList, hpycdot nm hdot, hdot]
  · intro m rm rd cs rest depth maxd
    simp [findPycList]
  · intro e maxd extra
    have h : maxd < maxd + 1 + extra := by omega
    cases e <;> simp [findNM, h]
  · intro e maxd extra
    have h : maxd < maxd + 1 + extra := by omega
    cases e <;> simp [findPyc, h]

/-- C7 (witness): the pruning and skipping facts at concrete inputs
(a `.git` dot-directory, a `.venv` dot-directory, `Library`, a call one
past the bound, and the Scenario C tree). -/
theorem c7_finder_prunes_and_skips_witness :
    findNMList [FSEntry.dir "node_modules" none true true
        [FSEntry.dir "inner" none true true []]] 0 3
      = [FSEntry.dir "node_modules" none true true [FSEntry.dir "inner" none true true []]]
    ∧ findPycList [FSEntry.dir "__pycache__" none true true []] 0 4
      = [FSEntry.dir "__pycache__" none true true []]
    ∧ findNMList [FSEntry.dir ".git" none true true
        [FSEntry.dir "node_modules" none true true []]] 0 3 = []
    ∧ findNMList [FSEntry.dir "Library" none true true
        [FSEntry.dir "node_modules" none true true []]] 0 3 = []
    ∧ findPycList [FSEntry.dir ".venv" none true true
        [FSEntry.dir "__pycache__" none true true []]] 0 4 = []
    ∧ findPycList [FSEntry.dir "Library" none true true
        [FSEntry.dir "__pycache__" none true true []]] 0 4 = []
    ∧ findNM deepNMTree 4 3 = []
    ∧ findPyc deepNMTree 5 4 = []
    ∧ findNM scenarioTreeC 0 3 = [FSEntry.dir "node_modules" none true true nmInterior] := by
  have h := c7_finder_prunes_and_skips
  exact ⟨h.1 none true true [FSEntry.dir "inner" none true true []] [] 0 3,
    h.2.1 none true true ([] : List FSEntry) [] 0 4,
    h.2.2.1 ".git" none true true [FSEntry.dir "node_modules" none true true []] [] 0 3 rfl,
    h.2.2.2.1 none true true [FSEntry.dir "node_modules" none true true []] [] 0 3,
    h.2.2.2.2.1 ".venv" none true true [FSEntry.dir "__pycache__" none true true []] [] 0 4 rfl,
    h.2.2.2.2.2.1 none true true [FSEntry.dir "__pycache__" none true true []] [] 0 4,
    h.2.2.2.2.2.2.1 deepNMTree 3 0,
    h.2.2.2.2.2.2.2.1 deepNMTree 4 0,
    h.2.2.2.2.2.2.2.2⟩

/-- C8: `files_removed` returned by `clean_directory` never exceeds the
number of immediate children of the target, in every mode and under every
rule: a removed directory counts as one removal regardless of its
contents. -/
theorem c8_files_removed_le_top_level (readable : Bool) (children : List FSEntry)
    (days_old : Option Nat) (dry_run : Bool) :
    (clean_directory readable children days_old dry_run).stats.files_removed
      ≤ children.length := by
  cases readable
  · simp [clean_directory]
  · simpa [clean_directory] using cleanList_files_le days_old dry_run children

/-- C9: a target whose listing is missing or unreadable yields empty stats
from `clean_directory` (no error, nothing touched) and size 0 from both
size estimators; unreadable sub-entries (unreadable metadata or an
unreadable subdirectory listing) contribute zero to a recursive size
computation without aborting the rest of the sum. -/
theorem c9_missing_or_unreadable_zero :
    (∀ children days_old dry_run,
      clean_directory false children days_old dry_run = ⟨⟨0, 0⟩, children, 0⟩)
    ∧ (∀ n m rm children, entryRecSize (FSEntry.dir n m rm false children) = 0)
    ∧ (∀ children days, get_old_files_size false children days = 0)
    ∧ (∀ n rm, entryRecSize (FSEntry.file n none rm) = 0)
    ∧ (∀ n m rm children rest,
        listSize (FSEntry.dir n m rm false children :: rest) = listSize rest)
    ∧ (∀ n rm rest, listSize (FSEntry.file n none rm :: rest) = listSize rest) := by
  refine ⟨fun _ _ _ => rfl, fun _ _ _ _ => rfl, fun _ _ => rfl, fun _ _ => rfl, ?_, ?_⟩
  · intro n m rm children rest
    simp [listSize, entryRecSize]
  · intro n rm rest
    simp [listSize, entryRecSize]

/-- C10: a zero-day minimum age is the same as no minimum age: for every
listing and mode, `clean_directory` with `Some 0` returns the same stats,
leaves the same entries and performs the same removal calls as with
`None` (relied on by the cookie cleanup, which passes `Some(0)` to mean
full clear). -/
theorem c10_zero_min_age_equals_none (readable : Bool) (children : List FSEntry)
    (dry_run : Bool) :
    clean_directory readable children (some 0) dry_run
      = clean_directory readable children none dry_run := by
  cases readable <;> simp [clean_directory, cleanList_zero_eq_none]
